import Mathlib

/-!
Shallow embedding of the file-manager CLI (`fileManager.js`) for verification.

The embedding models:
* the POSIX string-path operations the code uses (`path.resolve`,
  `path.dirname`, `path.isAbsolute`, `String.prototype.startsWith`,
  `String.prototype.toLowerCase`);
* the tokenizer `#getCommandWithParameters` and the quote unwrapping
  `#unbraketString`;
* the byte-level consequence of reading a stream with the `utf-8` encoding
  (decode to code points with U+FFFD replacement, re-encode to UTF-8);
* the filesystem as a finite association list from absolute path strings to
  entries, the validators `#ifFileOK` / `#ifAbsolutePathOK`, and every
  command handler reachable from the dispatch switch in `#handleUserInput`.
-/

namespace FM

/-! ### Path strings

`fileManager.js` manipulates paths purely as strings; we model the string
operations it uses at the character-list level. -/

/-- Character-list prefix test; models `String.prototype.startsWith`
(which compares by code units; paths here are plain characters). -/
def isPre : List Char → List Char → Bool
  | [], _ => true
  | _ :: _, [] => false
  | a :: as, b :: bs => a == b && isPre as bs

/-- Models `s.toLowerCase()`; the paths in all claims are ASCII, where JS
lowercasing agrees with `Char.toLower`. -/
def lowerStr (s : String) : String := ⟨s.data.map Char.toLower⟩

/-- JS `s.startsWith(p)` on strings. -/
def startsWithStr (s p : String) : Bool := isPre p.data s.data

/-- Node `path.isAbsolute` for POSIX: the string starts with a slash. -/
def strIsAbsolute (s : String) : Bool := isPre [slash] s.data
  where slash : Char := '/'

/-- Splitter on the slash character, keeping empty pieces (they are
filtered by `splitPath`). -/
def spAux : List Char → List Char → List (List Char)
  | cur, [] => [cur]
  | cur, c :: cs => if c = '/' then cur :: spAux [] cs else spAux (cur ++ [c]) cs

/-- Path components of a string: split on the separator and drop empty
components, as Node's path normalization does. -/
def splitPath (s : String) : List String :=
  ((spAux [] s.data).filter (fun l => !l.isEmpty)).map (fun l => ⟨l⟩)

/-- Interleave path components with separators. -/
def interComps : List String → List Char
  | [] => []
  | [c] => c.data
  | c :: c2 :: rest => c.data ++ '/' :: interComps (c2 :: rest)

/-- Build an absolute path string from components; `joinAbs [] = "/"`. -/
def joinAbs (comps : List String) : String := ⟨'/' :: interComps comps⟩

/-- Normalization stack for `.` and `..` components, exactly as POSIX
`path.resolve` processes them against an absolute base (a `..` at the root
is dropped). -/
def normStack (acc : List String) : List String → List String
  | [] => acc
  | c :: cs =>
    if c = "." then normStack acc cs
    else if c = ".." then normStack acc.dropLast cs
    else normStack (acc ++ [c]) cs

/-- Components of `path.resolve(cwd, p)` for an absolute `cwd`: an absolute
`p` is normalized alone, a relative one is appended to `cwd` first. -/
def resolveComps (cwd p : String) : List String :=
  if strIsAbsolute p then normStack [] (splitPath p)
  else normStack [] (splitPath cwd ++ splitPath p)

/-- Node `path.resolve(cwd, p)` (POSIX, absolute `cwd`). -/
def resolve (cwd p : String) : String := joinAbs (resolveComps cwd p)

/-- Node `path.dirname` on the normalized absolute strings the code feeds it
(outputs of `path.resolve`): drop the last component. -/
def dirname (s : String) : String := joinAbs (splitPath s).dropLast

/-! ### Tokenizer (`#charIsBracket`, `#getCommandWithParameters`,
`#unbraketString`) -/

/-- The single-quote character. -/
def quoteChar : Char := Char.ofNat 39

/-- The double-quote character. -/
def dquoteChar : Char := Char.ofNat 34

/-- Source `#charIsBracket`: the two quote characters recognized by the scanner. -/
def charIsBracket (c : Char) : Bool := c == quoteChar || c == dquoteChar

/-- The character loop of `#getCommandWithParameters`: `inBr` is
`paramInBracketsStarted`, `tmp` the accumulated token.  A quote character
toggles `inBr` first; any non-space character is appended; a space is
appended when inside brackets and otherwise flushes a non-empty `tmp`. -/
def gcwpAux (inBr : Bool) (tmp : List Char) : List Char → List String
  | [] => if tmp.isEmpty then [] else [⟨tmp⟩]
  | c :: cs =>
    let inBr2 := if charIsBracket c then !inBr else inBr
    if c ≠ ' ' then gcwpAux inBr2 (tmp ++ [c]) cs
    else if inBr2 then gcwpAux inBr2 (tmp ++ [c]) cs
    else if tmp.isEmpty then gcwpAux inBr2 [] cs
    else String.mk tmp :: gcwpAux inBr2 [] cs

/-- A whitespace character, as `String.prototype.trim` removes from both
ends of the line. -/
def isWs (c : Char) : Bool := c == ' ' || c == '\t' || c == '\n' || c == '\r'

/-- JS `input.trim()` at the character level. -/
def trimChars (l : List Char) : List Char :=
  ((l.dropWhile isWs).reverse.dropWhile isWs).reverse

/-- Source `#getCommandWithParameters`: empty input gives no tokens, otherwise the
trimmed line is scanned. -/
def getCommandWithParameters (input : String) : List String :=
  if input.isEmpty then [] else gcwpAux false [] (trimChars input.data)

/-- Source `#unbraketString` on the character list: strip the first and last
characters when the first is a quote character equal to the last; a
singleton quote character becomes empty via the early return after
`slice(1)`. -/
def unbraket : List Char → List Char
  | [] => []
  | c :: rest =>
    if !charIsBracket c then c :: rest
    else if rest.getLastD c ≠ c then c :: rest
    else
      match rest with
      | [] => []
      | _ :: _ => rest.dropLast

/-- Source `#unbraketString` on strings. -/
def unbraketString (s : String) : String := ⟨unbraket s.data⟩

/-- The spec's `tokenize`: the scanner composed with the per-token quote
unwrap that each handler applies to its arguments before use. -/
def tokenize (s : String) : List String :=
  (getCommandWithParameters s).map unbraketString

/-! ### Bytes and the `utf-8` stream encoding

`#createCopyingPromise` and `#compressFile` open their read streams with
the `utf-8` encoding, so the bytes that reach the destination are the
source bytes decoded to code points (invalid sequences replaced by U+FFFD)
and re-encoded as UTF-8.  File contents are byte lists (`Nat < 256`). -/

/-- A UTF-8 continuation byte. -/
def isCont (b : Nat) : Bool := 0x80 ≤ b && b ≤ 0xBF

/-- UTF-8 encoding of one code point. -/
def encCp (cp : Nat) : List Nat :=
  if cp < 0x80 then [cp]
  else if cp < 0x800 then [0xC0 + cp / 64, 0x80 + cp % 64]
  else if cp < 0x10000 then
    [0xE0 + cp / 4096, 0x80 + (cp / 64) % 64, 0x80 + cp % 64]
  else
    [0xF0 + cp / 262144, 0x80 + (cp / 4096) % 64, 0x80 + (cp / 64) % 64,
      0x80 + cp % 64]

/-- UTF-8 encoding of a code-point sequence (what the byte-mode write
stream does to the decoded string chunks). -/
def utf8Encode : List Nat → List Nat
  | [] => []
  | c :: cs => encCp c ++ utf8Encode cs

/-- UTF-8 decoding with U+FFFD replacement for invalid subparts, as Node
decodes a stream opened with the `utf-8` encoding. -/
def utf8Decode : List Nat → List Nat
  | [] => []
  | b :: rest =>
    if b < 0x80 then b :: utf8Decode rest
    else if 0xC2 ≤ b && b ≤ 0xDF then
      match rest with
      | [] => [0xFFFD]
      | c :: rest2 =>
        if isCont c then ((b - 0xC0) * 64 + (c - 0x80)) :: utf8Decode rest2
        else 0xFFFD :: utf8Decode (c :: rest2)
    else if 0xE0 ≤ b && b ≤ 0xEF then
      match rest with
      | [] => [0xFFFD]
      | c :: rest2 =>
        if (b = 0xE0 && 0xA0 ≤ c && c ≤ 0xBF) ||
            (b = 0xED && 0x80 ≤ c && c ≤ 0x9F) ||
            (b ≠ 0xE0 && b ≠ 0xED && isCont c) then
          match rest2 with
          | [] => [0xFFFD]
          | d :: rest3 =>
            if isCont d then
              ((b - 0xE0) * 4096 + (c - 0x80) * 64 + (d - 0x80)) ::
                utf8Decode rest3
            else 0xFFFD :: utf8Decode (d :: rest3)
        else 0xFFFD :: utf8Decode (c :: rest2)
    else if 0xF0 ≤ b && b ≤ 0xF4 then
      match rest with
      | [] => [0xFFFD]
      | c :: rest2 =>
        if (b = 0xF0 && 0x90 ≤ c && c ≤ 0xBF) ||
            (b = 0xF4 && 0x80 ≤ c && c ≤ 0x8F) ||
            (b ≠ 0xF0 && b ≠ 0xF4 && isCont c) then
          match rest2 with
          | [] => [0xFFFD]
          | d :: rest3 =>
            if isCont d then
              match rest3 with
              | [] => [0xFFFD]
              | e :: rest4 =>
                if isCont e then
                  ((b - 0xF0) * 262144 + (c - 0x80) * 4096 +
                      (d - 0x80) * 64 + (e - 0x80)) :: utf8Decode rest4
                else 0xFFFD :: utf8Decode (e :: rest4)
            else 0xFFFD :: utf8Decode (d :: rest3)
        else 0xFFFD :: utf8Decode (c :: rest2)
    else 0xFFFD :: utf8Decode rest

/-- The byte transform applied by piping a `utf-8`-encoded read stream
into a byte-mode write stream (`#createCopyingPromise`, and the read side
of `#compressFile`). -/
def copiedContent (bs : List Nat) : List Nat := utf8Encode (utf8Decode bs)

/-! ### Filesystem model

An abstract snapshot of the part of the disk the commands touch: a finite
association list from absolute path strings (as produced by
`path.resolve`) to entries.  Lookups are exact-string, matching a
case-sensitive filesystem. -/

/-- A directory entry: a regular file with its bytes, or a directory. -/
inductive Entry
  | file (content : List Nat)
  | dir
  deriving Repr, DecidableEq

/-- The filesystem: path-to-entry pairs in directory order (the order
`readdir` reports children). -/
abbrev FS := List (String × Entry)

/-- Look up a path. -/
def lookupFS (fs : FS) (p : String) : Option Entry :=
  (fs.find? (fun pe => pe.1 == p)).map (fun pe => pe.2)

/-- True when `fsp.stat(p)` succeeded and `stats.isFile()`: models `#isFile`. -/
def isFile (fs : FS) (p : String) : Bool :=
  match lookupFS fs p with
  | some (Entry.file _) => true
  | _ => false

/-- True when `fsp.stat(p)` succeeded and `stats.isDirectory()`: models
`#isDirectory`. -/
def isDirectory (fs : FS) (p : String) : Bool :=
  match lookupFS fs p with
  | some Entry.dir => true
  | _ => false

/-- Write an entry: replace an existing binding or append a new one (a new
name appears at the end of the directory order). -/
def setFS (fs : FS) (p : String) (e : Entry) : FS :=
  if (fs.find? (fun pe => pe.1 == p)).isSome then
    fs.map (fun pe => if pe.1 == p then (p, e) else pe)
  else fs ++ [(p, e)]

/-- Remove a binding (`fsp.unlink` / the removal half of `fsp.rename`). -/
def removeFS (fs : FS) (p : String) : FS :=
  fs.filter (fun pe => pe.1 != p)

/-! ### Errors

One constructor per `throw new Error(...)` site of the validators, plus a
constructor for errors surfaced by the underlying fs calls themselves. -/

/-- The distinguishable failure causes of the validators and fs layer. -/
inductive FMError
  /-- `Path to file is not set` (`#ifFileOK`). -/
  | fileNotSet
  /-- `File '<p>' does not exist` (`#ifFileOK`, `checkFileExistance`). -/
  | fileNotFound (p : String)
  /-- `File '<p>' already exists` (`#ifFileOK`, `checkFileNonExistance`). -/
  | fileAlreadyExists (p : String)
  /-- `Path to directory is not set` (`#ifAbsolutePathOK`). -/
  | dirNotSet
  /-- `Path '<p>' is not absolute` (`#ifAbsolutePathOK`). -/
  | notAbsolute (p : String)
  /-- `Directory '<p>' does not exist` (`#ifAbsolutePathOK`). -/
  | dirNotFound (p : String)
  /-- `You can't go upper than root directory` (`#ifAbsolutePathOK`). -/
  | outsideRoot
  /-- An error raised by an underlying fs call that rejects the awaited
  promise (e.g. `readdir` on a missing directory, `fsp.writeFile` or
  `fsp.rename` onto an existing directory, or the hooked write-stream
  errors of `#compressFile` / `#decompressFile`); these reach the
  dispatch-boundary catch. -/
  | fsFail (p : String)
  /-- An `error` event emitted by a stream of `#createCopyingPromise`,
  which attaches no error listener to either stream: the promise never
  settles and the event kills the process before the catch or finally of
  `#handleUserInput` can run. -/
  | uncaught (p : String)
  deriving Repr, DecidableEq

/-! ### Validators (`#ifAbsolutePathOK`, `#ifFileOK`) -/

/-- Source `#ifAbsolutePathOK({ absolutePath, checkDirectoryExistance })` against
root directory `root` and filesystem `fs`; check order exactly as in the
source: non-empty, absolute, directory existence, root-containment
(case-insensitive `startsWith`). -/
def ifAbsolutePathOK (root : String) (fs : FS) (absolutePath : String)
    (checkDirectoryExistance : Bool) : Except FMError Unit :=
  if absolutePath.data.isEmpty then Except.error FMError.dirNotSet
  else if !strIsAbsolute absolutePath then
    Except.error (FMError.notAbsolute absolutePath)
  else if checkDirectoryExistance && !isDirectory fs absolutePath then
    Except.error (FMError.dirNotFound absolutePath)
  else if !startsWithStr (lowerStr absolutePath) (lowerStr root) then
    Except.error FMError.outsideRoot
  else Except.ok ()

/-- Source `#ifFileOK({ pathToFile, checkFileExistance, checkFileNonExistance })`
with current directory `cwd` and root `root`: resolve, run the existence
checks, then validate the parent directory. -/
def ifFileOK (root cwd : String) (fs : FS) (pathToFile : String)
    (checkFileExistance checkFileNonExistance : Bool) :
    Except FMError Unit :=
  if pathToFile.data.isEmpty then Except.error FMError.fileNotSet
  else
    let fullFilePath := resolve cwd pathToFile
    let fullFileDirname := dirname fullFilePath
    if checkFileExistance && !isFile fs fullFilePath then
      Except.error (FMError.fileNotFound fullFilePath)
    else if checkFileNonExistance && isFile fs fullFilePath then
      Except.error (FMError.fileAlreadyExists fullFilePath)
    else ifAbsolutePathOK root fs fullFileDirname true

/-! ### Session state, output, and configuration -/

/-- The mutable fields of the `FileManager` instance that the handlers
touch. -/
structure State where
  rootWorkDir : String
  currentWorkDir : String
  userName : String
  ignoreStdin : Bool
  deriving Repr, DecidableEq

/-- One line (or table) written to the terminal, tagged by which writer
call produced it. -/
inductive OutLine
  /-- `writeln(data)` with the plain message type. -/
  | plain (s : String)
  /-- `printCurrentWorkDir()`: the `You are currently in <dir>` line. -/
  | curDirMsg (dir : String)
  /-- `#printProptForCommand()`: the prompt line. -/
  | promptMsg
  /-- `#showInvalidInputMessage()`: the generic `Invalid input` line. -/
  | invalidMsg
  /-- `#showOperationFailedMessage(error.message)`: the single
  `Operation failed: <message>` line printed at the dispatch boundary. -/
  | failMsg (e : FMError)
  /-- `printTable(rows, [Name, Type])` / the CPU table. -/
  | table (rows : List (String × String))
  /-- The chunks of a file streamed by `cat`, as decoded code points. -/
  | fileOut (cps : List Nat)
  /-- The farewell message printed by `close()`. -/
  | bye (userName : String)
  deriving Repr, DecidableEq

/-- Environment values and external codecs the handlers delegate to:
`JSON.stringify(os.EOL)`, `os.cpus()`, `os.arch()`, the SHA-256 hex digest
and the brotli codec pair. -/
structure Config where
  eolJson : String
  cpus : List (String × Nat)
  arch : String
  sha256hex : List Nat → String
  brotliCompress : List Nat → List Nat
  brotliDecompress : List Nat → List Nat

/-- The result of a handler that returned without throwing: the updated
session state and filesystem, the lines it wrote, and whether it closed
the session. -/
structure HRes where
  st : State
  fs : FS
  out : List OutLine
  closed : Bool
  /-- True when the process died from an uncaught exception (an `error`
  event emitted by a stream with no listener attached), so neither the
  catch nor the finally of `#handleUserInput` ever ran. -/
  crashed : Bool := false
  deriving Repr, DecidableEq

/-- A handler outcome that changes nothing and prints nothing. -/
def noop (st : State) (fs : FS) : HRes :=
  { st := st, fs := fs, out := [], closed := false }

/-- A handler outcome that prints `out` and changes nothing else. -/
def outRes (st : State) (fs : FS) (out : List OutLine) : HRes :=
  { st := st, fs := fs, out := out, closed := false }

/-- The arity-violation outcome: `#showInvalidInputMessage()` and an early
return, with no effect on state or filesystem. -/
def invalidRes (st : State) (fs : FS) : HRes :=
  { st := st, fs := fs, out := [OutLine.invalidMsg], closed := false }

/-- Read the bytes of a file; an error models the read stream failing on a
missing or non-regular path. -/
def readFile (fs : FS) (p : String) : Except FMError (List Nat) :=
  match lookupFS fs p with
  | some (Entry.file c) => Except.ok c
  | _ => Except.error (FMError.fsFail p)

/-! ### Command handlers

Each `#<handler>(commandWithParams)` first checks the exact token count
(command word included) and the command word itself, printing the generic
invalid-input message on violation, then validates paths and finally
performs its effect. -/

/-- Source exit handler (the dot-exit command). -/
def exitH (st : State) (fs : FS) (params : List String) :
    Except FMError HRes :=
  if params.isEmpty || params.length != 1 || params.headD "" != ".exit" then
    Except.ok (invalidRes st fs)
  else
    Except.ok { outRes st fs [OutLine.bye st.userName] with closed := true }

/-- Source `#goUpper`: a no-op at the root (exact string comparison), otherwise
`currentWorkDir = path.resolve(currentWorkDir, "..")`. -/
def goUpper (st : State) (fs : FS) (params : List String) :
    Except FMError HRes :=
  if params.isEmpty || params.length != 1 || params.headD "" != "up" then
    Except.ok (invalidRes st fs)
  else if st.currentWorkDir == st.rootWorkDir then
    Except.ok (noop st fs)
  else
    Except.ok (noop { st with
      currentWorkDir := resolve st.currentWorkDir ".." } fs)

/-- Source `#changeDir`: resolve the unbracketed argument, validate it as an
existing directory inside the root, then assign it. -/
def changeDir (st : State) (fs : FS) (params : List String) :
    Except FMError HRes :=
  if params.isEmpty || params.length != 2 || params.headD "" != "cd" then
    Except.ok (invalidRes st fs)
  else
    let nextDir := resolve st.currentWorkDir (unbraketString (params.getD 1 ""))
    match ifAbsolutePathOK st.rootWorkDir fs nextDir true with
    | Except.error e => Except.error e
    | Except.ok _ =>
      Except.ok (noop { st with currentWorkDir := nextDir } fs)

/-! #### `#listDir` pieces -/

/-- The names `fsp.readdir(currentWorkDir)` reports, in directory order. -/
def readdirNames (fs : FS) (cwd : String) : List String :=
  fs.filterMap (fun pe =>
    if pe.1 != cwd && dirname pe.1 == cwd then
      some ((splitPath pe.1).getLastD "")
    else none)

/-- Node `path.join(currentWorkDir, element)` for a plain entry name. -/
def joinChild (cwd name : String) : String :=
  joinAbs (normStack [] (splitPath cwd ++ splitPath name))

/-- The comparator passed to `Array.prototype.sort`: directories before
files; the two name comparisons in the source read `a.name` / `b.name`,
properties absent from the objects (which carry `Name`), so in JS both
comparisons are `undefined < undefined`, i.e. false, and same-kind entries
compare equal. -/
def listCmp (a b : String × Bool) : Int :=
  if a.2 && !b.2 then -1
  else if !a.2 && b.2 then 1
  else if undefLt then -1
  else if undefLt then 1
  else 0
  where
    /-- `a.name < b.name` with both sides `undefined`. -/
    undefLt : Bool := false

/-- Stable insertion of `x` after every earlier element that does not
compare strictly greater than it. -/
def insertCmp (cmp : α → α → Int) (x : α) : List α → List α
  | [] => [x]
  | y :: ys => if cmp y x > 0 then x :: y :: ys else y :: insertCmp cmp x ys

/-- A stable sort by a JS-style comparator; for a consistent comparator
this is observably the same as `Array.prototype.sort` (stable per
ECMAScript 2019). -/
def sortCmp (cmp : α → α → Int) (l : List α) : List α :=
  l.foldl (fun acc x => insertCmp cmp x acc) []

/-- Source `#listDir`: read the entries of the current directory, sort with the
comparator, and print the Name/Type table. -/
def listDir (st : State) (fs : FS) (params : List String) :
    Except FMError HRes :=
  if params.isEmpty || params.length != 1 || params.headD "" != "ls" then
    Except.ok (invalidRes st fs)
  else if !isDirectory fs st.currentWorkDir then
    Except.error (FMError.fsFail st.currentWorkDir)
  else
    let objects := (readdirNames fs st.currentWorkDir).map (fun n =>
      (n, isDirectory fs (joinChild st.currentWorkDir n)))
    let sorted := sortCmp listCmp objects
    let rows := sorted.map (fun o =>
      (o.1, if o.2 then "directory" else "file"))
    Except.ok (outRes st fs [OutLine.table rows])

/-- Source `#printFileContent` (`cat`): validate, then stream the file decoded as
UTF-8 followed by an empty `writeln()`. -/
def printFileContent (st : State) (fs : FS) (params : List String) :
    Except FMError HRes :=
  if params.isEmpty || params.length != 2 || params.headD "" != "cat" then
    Except.ok (invalidRes st fs)
  else
    let pathToFile :=
      resolve st.currentWorkDir (unbraketString (params.getD 1 ""))
    match ifFileOK st.rootWorkDir st.currentWorkDir fs pathToFile
        true false with
    | Except.error e => Except.error e
    | Except.ok _ =>
      match readFile fs pathToFile with
      | Except.error e => Except.error e
      | Except.ok c =>
        Except.ok (outRes st fs
          [OutLine.fileOut (utf8Decode c), OutLine.plain ""])

/-- Source `#createEmptyFile` (`add`): validate non-existence, then write
an empty file; `fsp.writeFile` onto a path that exists as a directory
(which the non-existence check admits) rejects with EISDIR, leaving the
filesystem unchanged. -/
def createEmptyFile (st : State) (fs : FS) (params : List String) :
    Except FMError HRes :=
  if params.isEmpty || params.length != 2 || params.headD "" != "add" then
    Except.ok (invalidRes st fs)
  else
    let pathToFile :=
      resolve st.currentWorkDir (unbraketString (params.getD 1 ""))
    match ifFileOK st.rootWorkDir st.currentWorkDir fs pathToFile
        false true with
    | Except.error e => Except.error e
    | Except.ok _ =>
      if isDirectory fs pathToFile then
        Except.error (FMError.fsFail pathToFile)
      else Except.ok (noop st (setFS fs pathToFile (Entry.file [])))

/-- Source `#renameFile` (`rn`): validate source existence and
destination non-existence, then `fsp.rename`; renaming a file onto a path
that exists as a directory rejects, leaving the filesystem unchanged. -/
def renameFile (st : State) (fs : FS) (params : List String) :
    Except FMError HRes :=
  if params.isEmpty || params.length != 3 || params.headD "" != "rn" then
    Except.ok (invalidRes st fs)
  else
    let filePath :=
      resolve st.currentWorkDir (unbraketString (params.getD 1 ""))
    let newFilePath :=
      resolve st.currentWorkDir (unbraketString (params.getD 2 ""))
    match ifFileOK st.rootWorkDir st.currentWorkDir fs filePath
        true false with
    | Except.error e => Except.error e
    | Except.ok _ =>
      match ifFileOK st.rootWorkDir st.currentWorkDir fs newFilePath
          false true with
      | Except.error e => Except.error e
      | Except.ok _ =>
        if isDirectory fs newFilePath then
          Except.error (FMError.fsFail newFilePath)
        else
          match readFile fs filePath with
          | Except.error e => Except.error e
          | Except.ok c =>
            Except.ok (noop st
              (setFS (removeFS fs filePath) newFilePath (Entry.file c)))

/-- Source `#copyFile` (`cp`): same validation as rename, then
`#createCopyingPromise`, whose read stream is opened with the `utf-8`
encoding, and which attaches no error listener to either stream: when the
destination exists as a directory (admitted by validation) the write
stream emits an unhandled EISDIR `error` event and the process dies. -/
def copyFile (st : State) (fs : FS) (params : List String) :
    Except FMError HRes :=
  if params.isEmpty || params.length != 3 || params.headD "" != "cp" then
    Except.ok (invalidRes st fs)
  else
    let filePath :=
      resolve st.currentWorkDir (unbraketString (params.getD 1 ""))
    let newFilePath :=
      resolve st.currentWorkDir (unbraketString (params.getD 2 ""))
    match ifFileOK st.rootWorkDir st.currentWorkDir fs filePath
        true false with
    | Except.error e => Except.error e
    | Except.ok _ =>
      match ifFileOK st.rootWorkDir st.currentWorkDir fs newFilePath
          false true with
      | Except.error e => Except.error e
      | Except.ok _ =>
        if isDirectory fs newFilePath then
          Except.error (FMError.uncaught newFilePath)
        else
          match readFile fs filePath with
          | Except.error e => Except.error e
          | Except.ok c =>
            Except.ok (noop st
              (setFS fs newFilePath (Entry.file (copiedContent c))))

/-- Source `#moveFile` (`mv`): copy (with the same `utf-8` read and the
same unhandled stream-error crash on a directory destination, which then
happens before the unlink), then unlink the source. -/
def moveFile (st : State) (fs : FS) (params : List String) :
    Except FMError HRes :=
  if params.isEmpty || params.length != 3 || params.headD "" != "mv" then
    Except.ok (invalidRes st fs)
  else
    let filePath :=
      resolve st.currentWorkDir (unbraketString (params.getD 1 ""))
    let newFilePath :=
      resolve st.currentWorkDir (unbraketString (params.getD 2 ""))
    match ifFileOK st.rootWorkDir st.currentWorkDir fs filePath
        true false with
    | Except.error e => Except.error e
    | Except.ok _ =>
      match ifFileOK st.rootWorkDir st.currentWorkDir fs newFilePath
          false true with
      | Except.error e => Except.error e
      | Except.ok _ =>
        if isDirectory fs newFilePath then
          Except.error (FMError.uncaught newFilePath)
        else
          match readFile fs filePath with
          | Except.error e => Except.error e
          | Except.ok c =>
            Except.ok (noop st
              (removeFS
                (setFS fs newFilePath (Entry.file (copiedContent c)))
                filePath))

/-- Source `#deleteFile` (`rm`): validate existence, then unlink. -/
def deleteFile (st : State) (fs : FS) (params : List String) :
    Except FMError HRes :=
  if params.isEmpty || params.length != 2 || params.headD "" != "rm" then
    Except.ok (invalidRes st fs)
  else
    let pathToFile :=
      resolve st.currentWorkDir (unbraketString (params.getD 1 ""))
    match ifFileOK st.rootWorkDir st.currentWorkDir fs pathToFile
        true false with
    | Except.error e => Except.error e
    | Except.ok _ => Except.ok (noop st (removeFS fs pathToFile))

/-- The recognized `os` sub-command flags. -/
def osValues : List String :=
  ["--EOL", "--cpus", "--homedir", "--username", "--architecture"]

/-- Source `#getOSCommandParameter`: `null` unless there are at most two tokens,
the first is `os` and the second a recognized flag. -/
def getOSCommandParameter (params : List String) : Option String :=
  if params.isEmpty || params.length > 2 || params.headD "" != "os" ||
      !(osValues.contains (params.getD 1 "")) then
    none
  else some (params.getD 1 "")

/-- The `os` branch of the dispatch switch, including the inner switch
over the flag returned by `#getOSCommandParameter`. -/
def osCommand (cfg : Config) (st : State) (fs : FS)
    (params : List String) : Except FMError HRes :=
  match getOSCommandParameter params with
  | some flag =>
    if flag == "--EOL" then
      Except.ok (outRes st fs [OutLine.plain cfg.eolJson])
    else if flag == "--cpus" then
      Except.ok (outRes st fs [OutLine.table (cfg.cpus.map (fun mc =>
        (mc.1, toString mc.2 ++ " GHz")))])
    else if flag == "--homedir" then
      Except.ok (outRes st fs [OutLine.plain st.rootWorkDir])
    else if flag == "--username" then
      Except.ok (outRes st fs [OutLine.plain st.userName])
    else
      Except.ok (outRes st fs [OutLine.plain cfg.arch])
  | none => Except.ok (invalidRes st fs)

/-- Source `#getFileHash` (`hash`): validate, then print the SHA-256 hex
digest. -/
def getFileHash (cfg : Config) (st : State) (fs : FS)
    (params : List String) : Except FMError HRes :=
  if params.isEmpty || params.length != 2 || params.headD "" != "hash" then
    Except.ok (invalidRes st fs)
  else
    let pathToFile :=
      resolve st.currentWorkDir (unbraketString (params.getD 1 ""))
    match ifFileOK st.rootWorkDir st.currentWorkDir fs pathToFile
        true false with
    | Except.error e => Except.error e
    | Except.ok _ =>
      match readFile fs pathToFile with
      | Except.error e => Except.error e
      | Except.ok c =>
        Except.ok (outRes st fs [OutLine.plain (cfg.sha256hex c)])

/-- Source `#compressFile` (`compress`): validate both paths, then pipe
the source — read with the `utf-8` encoding — through brotli into the
destination; the write stream's `error` event is hooked to reject, so a
directory destination raises a caught EISDIR error and changes nothing. -/
def compressFile (cfg : Config) (st : State) (fs : FS)
    (params : List String) : Except FMError HRes :=
  if params.isEmpty || params.length != 3 ||
      params.headD "" != "compress" then
    Except.ok (invalidRes st fs)
  else
    let initialFilePath :=
      resolve st.currentWorkDir (unbraketString (params.getD 1 ""))
    let compressedFilePath :=
      resolve st.currentWorkDir (unbraketString (params.getD 2 ""))
    match ifFileOK st.rootWorkDir st.currentWorkDir fs initialFilePath
        true false with
    | Except.error e => Except.error e
    | Except.ok _ =>
      match ifFileOK st.rootWorkDir st.currentWorkDir fs
          compressedFilePath false true with
      | Except.error e => Except.error e
      | Except.ok _ =>
        if isDirectory fs compressedFilePath then
          Except.error (FMError.fsFail compressedFilePath)
        else
          match readFile fs initialFilePath with
          | Except.error e => Except.error e
          | Except.ok c =>
            Except.ok (noop st (setFS fs compressedFilePath
              (Entry.file (cfg.brotliCompress (copiedContent c)))))

/-- Source `#decompressFile` (`decompress`): validate both paths, then
pipe the source — read raw — through the brotli decoder into the
destination; the write stream's `error` event is hooked to reject, so a
directory destination raises a caught EISDIR error and changes nothing. -/
def decompressFile (cfg : Config) (st : State) (fs : FS)
    (params : List String) : Except FMError HRes :=
  if params.isEmpty || params.length != 3 ||
      params.headD "" != "decompress" then
    Except.ok (invalidRes st fs)
  else
    let compressedFilePath :=
      resolve st.currentWorkDir (unbraketString (params.getD 1 ""))
    let decompressedFilePath :=
      resolve st.currentWorkDir (unbraketString (params.getD 2 ""))
    match ifFileOK st.rootWorkDir st.currentWorkDir fs
        compressedFilePath true false with
    | Except.error e => Except.error e
    | Except.ok _ =>
      match ifFileOK st.rootWorkDir st.currentWorkDir fs
          decompressedFilePath false true with
      | Except.error e => Except.error e
      | Except.ok _ =>
        if isDirectory fs decompressedFilePath then
          Except.error (FMError.fsFail decompressedFilePath)
        else
          match readFile fs compressedFilePath with
          | Except.error e => Except.error e
          | Except.ok c =>
            Except.ok (noop st (setFS fs decompressedFilePath
              (Entry.file (cfg.brotliDecompress c))))

/-! ### Dispatch (`#handleUserInput`) -/

/-- The body of the switch on `_commandWithParams[0]` in
`#handleUserInput`, split on the command word; an unrecognized command
word prints the generic invalid-input message. -/
def dispatchCmd (cfg : Config) (st : State) (fs : FS) (cmd : String)
    (tokens : List String) : Except FMError HRes :=
  if cmd == ".exit" then exitH st fs tokens
  else if cmd == "up" then goUpper st fs tokens
  else if cmd == "cd" then changeDir st fs tokens
  else if cmd == "ls" then listDir st fs tokens
  else if cmd == "cat" then printFileContent st fs tokens
  else if cmd == "add" then createEmptyFile st fs tokens
  else if cmd == "rn" then renameFile st fs tokens
  else if cmd == "cp" then copyFile st fs tokens
  else if cmd == "mv" then moveFile st fs tokens
  else if cmd == "rm" then deleteFile st fs tokens
  else if cmd == "os" then osCommand cfg st fs tokens
  else if cmd == "hash" then getFileHash cfg st fs tokens
  else if cmd == "compress" then compressFile cfg st fs tokens
  else if cmd == "decompress" then decompressFile cfg st fs tokens
  else Except.ok (invalidRes st fs)

/-- The switch on `_commandWithParams[0]` in `#handleUserInput`. -/
def dispatch (cfg : Config) (st : State) (fs : FS)
    (tokens : List String) : Except FMError HRes :=
  dispatchCmd cfg st fs (tokens.headD "") tokens

/-- Source `#handleUserInput`: ignore input while the writer holds the
suppression flag, tokenize, silently drop empty token lists, dispatch
inside `try`/`catch`, and in `finally` print the current directory and a
prompt line.  An error that reaches the catch is rendered as one
operation-failed line; an `uncaught` stream error never reaches the catch
or the finally — the promise the handler returned never settles and the
unlistened `error` event kills the process, so nothing further prints. -/
def handleUserInput (cfg : Config) (st : State) (fs : FS)
    (input : String) : HRes :=
  if st.ignoreStdin then noop st fs
  else
    let tokens := getCommandWithParameters input
    if tokens.isEmpty then noop st fs
    else
      match dispatch cfg st fs tokens with
      | Except.ok r =>
        { r with out := r.out ++
            [OutLine.curDirMsg r.st.currentWorkDir, OutLine.promptMsg] }
      | Except.error (FMError.uncaught _) =>
        { st := st, fs := fs, out := [], closed := false, crashed := true }
      | Except.error e =>
        { st := st, fs := fs,
          out := [OutLine.failMsg e,
            OutLine.curDirMsg st.currentWorkDir, OutLine.promptMsg],
          closed := false }

/-! ### Path well-formedness and concrete fixtures -/

/-- A well-formed path component: non-empty, not a dot entry, without a
separator.  `path.resolve` only outputs such components. -/
def validComp (c : String) : Prop :=
  c.data ≠ [] ∧ c ≠ "." ∧ c ≠ ".." ∧ '/' ∉ c.data

instance (c : String) : Decidable (validComp c) := by
  unfold validComp
  infer_instance

/-- A fixed environment for concrete runs: identity codecs, a constant
digest, and fixed OS values. -/
def cfg0 : Config := ⟨"eol", [("cpu0", 3)], "x64", fun _ => "d", id, id⟩

/-- Root `/a` next to a sibling directory `/ab` that shares `/a` as a
string prefix. -/
def fsSib : FS := [("/", Entry.dir), ("/a", Entry.dir), ("/ab", Entry.dir)]

/-- A session rooted and sitting at `/a`. -/
def stRootA : State := ⟨"/a", "/a", "u", false⟩

/-- The session after `cd /ab`: rooted at `/a`, sitting at `/ab`. -/
def stAtAB : State := ⟨"/a", "/ab", "u", false⟩

/-- A session rooted and sitting at `/r`. -/
def stAtR : State := ⟨"/r", "/r", "u", false⟩

/-- Directory `/r` whose directory order reports `b.txt` before `a.txt` before the
subdirectory `sub`. -/
def fsList : FS := [("/", Entry.dir), ("/r", Entry.dir),
  ("/r/b.txt", Entry.file []), ("/r/a.txt", Entry.file []),
  ("/r/sub", Entry.dir)]

/-- Directory `/r` containing one file whose single byte 0xFF is not valid UTF-8. -/
def fsBin : FS := [("/", Entry.dir), ("/r", Entry.dir),
  ("/r/s.bin", Entry.file [255])]

/-! ### Lemmas about the path model -/

theorem isPre_refl (l : List Char) : isPre l l = true := by
  induction l with
  | nil => rfl
  | cons c cs ih => simp [isPre, ih]

theorem isPre_append (l m : List Char) : isPre l (l ++ m) = true := by
  induction l with
  | nil => rfl
  | cons c cs ih => simp [isPre, ih]

theorem isPre_trans {a b c : List Char} (h1 : isPre a b = true)
    (h2 : isPre b c = true) : isPre a c = true := by
  induction a generalizing b c with
  | nil => rfl
  | cons x xs ih =>
    cases b with
    | nil => simp [isPre] at h1
    | cons y ys =>
      cases c with
      | nil => simp [isPre] at h2
      | cons z zs =>
        simp [isPre] at h1 h2 ⊢
        exact ⟨h1.1.trans h2.1, ih h1.2 h2.2⟩

theorem isPre_map {a b : List Char} (f : Char → Char)
    (h : isPre a b = true) : isPre (a.map f) (b.map f) = true := by
  induction a generalizing b with
  | nil => rfl
  | cons x xs ih =>
    cases b with
    | nil => simp [isPre] at h
    | cons y ys =>
      simp [isPre] at h ⊢
      exact ⟨by rw [h.1], ih h.2⟩

theorem mkData (s : String) : String.mk s.data = s := by
  cases s
  rfl

theorem spAux_no_slash {l : List Char} (cur : List Char)
    (h : '/' ∉ l) : spAux cur l = [cur ++ l] := by
  induction l generalizing cur with
  | nil => simp [spAux]
  | cons c cs ih =>
    have hc : ¬c = '/' := fun hc => h (hc ▸ List.mem_cons_self c cs)
    have hcs : '/' ∉ cs := fun hm => h (List.mem_cons_of_mem c hm)
    rw [spAux, if_neg hc, ih (cur ++ [c]) hcs]
    simp

theorem spAux_split {l : List Char} (cur t : List Char)
    (h : '/' ∉ l) : spAux cur (l ++ '/' :: t) = (cur ++ l) :: spAux [] t := by
  induction l generalizing cur with
  | nil => simp [spAux]
  | cons c cs ih =>
    have hc : ¬c = '/' := fun hc => h (hc ▸ List.mem_cons_self c cs)
    have hcs : '/' ∉ cs := fun hm => h (List.mem_cons_of_mem c hm)
    rw [List.cons_append, spAux, if_neg hc, ih (cur ++ [c]) hcs]
    simp

theorem interComps_cons (c : String) {l : List String} (h : l ≠ []) :
    interComps (c :: l) = c.data ++ '/' :: interComps l := by
  cases l with
  | nil => exact absurd rfl h
  | cons d ds => rfl

theorem interComps_append {rc es : List String} (h1 : rc ≠ []) (h2 : es ≠ []) :
    interComps (rc ++ es) = interComps rc ++ '/' :: interComps es := by
  induction rc with
  | nil => exact absurd rfl h1
  | cons c cs ih =>
    cases cs with
    | nil =>
      cases es with
      | nil => exact absurd rfl h2
      | cons e es2 => rfl
    | cons c2 cs2 =>
      rw [List.cons_append,
        interComps_cons c (show c2 :: cs2 ++ es ≠ [] by simp),
        interComps_cons c (show c2 :: cs2 ≠ [] by simp),
        ih (show c2 :: cs2 ≠ [] by simp)]
      simp

theorem splitPath_joinAbs {cs : List String} (h : ∀ c ∈ cs, validComp c) :
    splitPath (joinAbs cs) = cs := by
  have main : ∀ (l : List String), (∀ c ∈ l, validComp c) →
      ((spAux [] (interComps l)).filter (fun x => !x.isEmpty)).map
        (fun x => (⟨x⟩ : String)) = l := by
    intro l
    induction l with
    | nil => intro _; simp [interComps, spAux]
    | cons c cs2 ih =>
      intro hv
      have hvc := hv c (List.mem_cons_self c cs2)
      cases cs2 with
      | nil =>
        rw [interComps, spAux_no_slash [] hvc.2.2.2]
        simp [hvc.1, mkData]
      | cons d ds =>
        rw [interComps_cons c (show d :: ds ≠ [] by simp),
          spAux_split [] _ hvc.2.2.2, List.filter_cons, List.nil_append]
        have hne : (!List.isEmpty c.data) = true := by
          simp [List.isEmpty_iff, hvc.1]
        rw [if_pos hne, List.map_cons, mkData,
          ih (fun x hx => hv x (List.mem_cons_of_mem c hx))]
  rw [splitPath]
  show ((spAux [] ('/' :: interComps cs)).filter (fun x => !x.isEmpty)).map
      (fun x => (⟨x⟩ : String)) = cs
  rw [show spAux [] ('/' :: interComps cs) = [] :: spAux [] (interComps cs)
    from by simp [spAux], List.filter_cons]
  simp only [List.isEmpty_nil, Bool.not_true, if_neg, Bool.false_eq_true,
    not_false_eq_true]
  exact main cs h

theorem normStack_app (acc xs ys : List String) :
    normStack acc (xs ++ ys) = normStack (normStack acc xs) ys := by
  induction xs generalizing acc with
  | nil => rfl
  | cons x xs ih =>
    by_cases h1 : x = "." <;> by_cases h2 : x = ".." <;>
      simp [normStack, h1, h2, ih]

theorem normStack_id (acc : List String) {cs : List String}
    (h : ∀ c ∈ cs, c ≠ "." ∧ c ≠ "..") : normStack acc cs = acc ++ cs := by
  induction cs generalizing acc with
  | nil => simp [normStack]
  | cons c cs ih =>
    have hc := h c (List.mem_cons_self c cs)
    rw [normStack, if_neg hc.1, if_neg hc.2,
      ih (acc ++ [c]) (fun d hd => h d (List.mem_cons_of_mem c hd))]
    simp

theorem mem_of_mem_dropLast {α} {l : List α} {a : α}
    (h : a ∈ l.dropLast) : a ∈ l := by
  rw [List.dropLast_eq_take] at h
  exact List.take_subset _ _ h

theorem normStack_mem {P : String → Prop} (acc : List String)
    {cs : List String} (hacc : ∀ c ∈ acc, P c)
    (hcs : ∀ c ∈ cs, c ≠ "." → c ≠ ".." → P c) :
    ∀ c ∈ normStack acc cs, P c := by
  induction cs generalizing acc with
  | nil => exact hacc
  | cons c cs ih =>
    have htl : ∀ d ∈ cs, d ≠ "." → d ≠ ".." → P d :=
      fun d hd => hcs d (List.mem_cons_of_mem c hd)
    by_cases h1 : c = "."
    · rw [normStack, if_pos h1]
      exact ih acc hacc htl
    · by_cases h2 : c = ".."
      · rw [normStack, if_neg h1, if_pos h2]
        exact ih acc.dropLast
          (fun d hd => hacc d (mem_of_mem_dropLast hd)) htl
      · rw [normStack, if_neg h1, if_neg h2]
        refine ih (acc ++ [c]) (fun d hd => ?_) htl
        rcases List.mem_append.mp hd with hd | hd
        · exact hacc d hd
        · rw [List.mem_singleton.mp hd]
          exact hcs c (List.mem_cons_self c cs) h1 h2

theorem splitPath_basic (s : String) :
    ∀ c ∈ splitPath s, c.data ≠ [] ∧ '/' ∉ c.data := by
  have spmem : ∀ (l cur : List Char), '/' ∉ cur →
      ∀ m ∈ spAux cur l, '/' ∉ m := by
    intro l
    induction l with
    | nil =>
      intro cur hcur m hm
      simp only [spAux, List.mem_singleton] at hm
      rw [hm]
      exact hcur
    | cons c cs ih =>
      intro cur hcur m hm
      by_cases hc : c = '/'
      · rw [spAux, if_pos hc] at hm
        rcases List.mem_cons.mp hm with hm | hm
        · rw [hm]; exact hcur
        · exact ih [] (by simp) m hm
      · rw [spAux, if_neg hc] at hm
        refine ih (cur ++ [c]) (fun hs => ?_) m hm
        rcases List.mem_append.mp hs with hs | hs
        · exact hcur hs
        · exact hc (List.mem_singleton.mp hs).symm
  intro c hc
  rw [splitPath] at hc
  rcases List.mem_map.mp hc with ⟨m, hm, rfl⟩
  rcases List.mem_filter.mp hm with ⟨hm1, hm2⟩
  refine ⟨by simpa [List.isEmpty_iff] using hm2, ?_⟩
  exact spmem s.data [] (by simp) m hm1

theorem resolveComps_valid (cwd p : String) :
    ∀ c ∈ resolveComps cwd p, validComp c := by
  have base : ∀ c ∈ ([] : List String), validComp c := by simp
  rw [resolveComps]
  split
  · refine normStack_mem [] base (fun c hc h1 h2 => ?_)
    have := splitPath_basic p c hc
    exact ⟨this.1, h1, h2, this.2⟩
  · refine normStack_mem [] base (fun c hc h1 h2 => ?_)
    rcases List.mem_append.mp hc with hc | hc
    · have := splitPath_basic cwd c hc
      exact ⟨this.1, h1, h2, this.2⟩
    · have := splitPath_basic p c hc
      exact ⟨this.1, h1, h2, this.2⟩

theorem isPre_joinAbs (rc es : List String) :
    isPre (joinAbs rc).data (joinAbs (rc ++ es)).data = true := by
  cases rc with
  | nil =>
    show isPre ['/'] _ = true
    simp [joinAbs, isPre]
  | cons c cs =>
    cases es with
    | nil => simpa using isPre_refl (joinAbs (c :: cs)).data
    | cons e es2 =>
      show isPre ('/' :: interComps (c :: cs)) _ = true
      rw [show (joinAbs ((c :: cs) ++ e :: es2)).data =
          '/' :: interComps ((c :: cs) ++ e :: es2) from rfl,
        interComps_append (show c :: cs ≠ [] by simp)
          (show e :: es2 ≠ [] by simp)]
      simp only [isPre, beq_self_eq_true, Bool.true_and]
      exact isPre_append _ _

theorem isPre_dirname {cs : List String} (h : ∀ c ∈ cs, validComp c) :
    isPre (dirname (joinAbs cs)).data (joinAbs cs).data = true := by
  rw [dirname, splitPath_joinAbs h]
  rcases List.eq_nil_or_concat cs with rfl | ⟨l2, a, rfl⟩
  · exact isPre_refl _
  · rw [List.concat_eq_append, List.dropLast_concat]
    exact isPre_joinAbs l2 [a]

theorem startsWith_lower_of_isPre {a b : String} (r : String)
    (hpre : isPre a.data b.data = true)
    (h : startsWithStr (lowerStr a) (lowerStr r) = true) :
    startsWithStr (lowerStr b) (lowerStr r) = true :=
  isPre_trans h (isPre_map Char.toLower hpre)

theorem ifAbsolutePathOK_ok {root p : String} {fs : FS} {b : Bool}
    (h : ifAbsolutePathOK root fs p b = Except.ok ()) :
    startsWithStr (lowerStr p) (lowerStr root) = true := by
  rw [ifAbsolutePathOK] at h
  split_ifs at h with h1 h2 h3 h4
  simpa using h4

theorem strIsAbsolute_joinAbs (cs : List String) :
    strIsAbsolute (joinAbs cs) = true := by
  show isPre ['/'] ('/' :: interComps cs) = true
  simp [isPre]

theorem joinAbs_data_ne (cs : List String) : (joinAbs cs).data ≠ [] := by
  show '/' :: interComps cs ≠ []
  simp

theorem ifFileOK_fails {root cwd p : String} {fs : FS} {ce cne : Bool}
    (h : startsWithStr (lowerStr (resolve cwd p)) (lowerStr root) = false) :
    (ifFileOK root cwd fs p ce cne).isOk = false := by
  rw [ifFileOK]
  dsimp only
  split_ifs with h1 h2 h3
  · rfl
  · rfl
  · rfl
  · rw [ifAbsolutePathOK]
    split_ifs with g1 g2 g3 g4
    · rfl
    · rfl
    · rfl
    · rfl
    · exfalso
      have hpre : isPre (dirname (resolve cwd p)).data
          (resolve cwd p).data = true :=
        isPre_dirname (resolveComps_valid cwd p)
      have hs : startsWithStr (lowerStr (dirname (resolve cwd p)))
          (lowerStr root) = true := by simpa using g4
      have := startsWith_lower_of_isPre root hpre hs
      rw [h] at this
      exact Bool.noConfusion this

theorem ifAbsolutePathOK_ne_alreadyExists (root p : String) (fs : FS)
    (b : Bool) (q : String) :
    ifAbsolutePathOK root fs p b ≠
      Except.error (FMError.fileAlreadyExists q) := by
  rw [ifAbsolutePathOK]
  split_ifs <;> simp

theorem isFile_eq_false_of_isDirectory {fs : FS} {p : String}
    (h : isDirectory fs p = true) : isFile fs p = false := by
  rw [isDirectory] at h
  rw [isFile]
  rcases hl : lookupFS fs p with _ | (_ | _) <;> simp_all

theorem exitH_st {st : State} {fs : FS} {params : List String}
    {r : HRes} (h : exitH st fs params = Except.ok r) : r.st = st := by
  rw [exitH] at h
  try dsimp only at h
  repeat' split at h
  all_goals first
    | exact Except.noConfusion h
    | (cases h; rfl)

theorem listDir_st {st : State} {fs : FS} {params : List String}
    {r : HRes} (h : listDir st fs params = Except.ok r) : r.st = st := by
  rw [listDir] at h
  try dsimp only at h
  repeat' split at h
  all_goals first
    | exact Except.noConfusion h
    | (cases h; rfl)

theorem printFileContent_st {st : State} {fs : FS} {params : List String}
    {r : HRes} (h : printFileContent st fs params = Except.ok r) : r.st = st := by
  rw [printFileContent] at h
  try dsimp only at h
  repeat' split at h
  all_goals first
    | exact Except.noConfusion h
    | (cases h; rfl)

theorem createEmptyFile_st {st : State} {fs : FS} {params : List String}
    {r : HRes} (h : createEmptyFile st fs params = Except.ok r) : r.st = st := by
  rw [createEmptyFile] at h
  try dsimp only at h
  repeat' split at h
  all_goals first
    | exact Except.noConfusion h
    | (cases h; rfl)

theorem renameFile_st {st : State} {fs : FS} {params : List String}
    {r : HRes} (h : renameFile st fs params = Except.ok r) : r.st = st := by
  rw [renameFile] at h
  try dsimp only at h
  repeat' split at h
  all_goals first
    | exact Except.noConfusion h
    | (cases h; rfl)

theorem copyFile_st {st : State} {fs : FS} {params : List String}
    {r : HRes} (h : copyFile st fs params = Except.ok r) : r.st = st := by
  rw [copyFile] at h
  try dsimp only at h
  repeat' split at h
  all_goals first
    | exact Except.noConfusion h
    | (cases h; rfl)

theorem moveFile_st {st : State} {fs : FS} {params : List String}
    {r : HRes} (h : moveFile st fs params = Except.ok r) : r.st = st := by
  rw [moveFile] at h
  try dsimp only at h
  repeat' split at h
  all_goals first
    | exact Except.noConfusion h
    | (cases h; rfl)

theorem deleteFile_st {st : State} {fs : FS} {params : List String}
    {r : HRes} (h : deleteFile st fs params = Except.ok r) : r.st = st := by
  rw [deleteFile] at h
  try dsimp only at h
  repeat' split at h
  all_goals first
    | exact Except.noConfusion h
    | (cases h; rfl)

theorem getFileHash_st {cfg : Config} {st : State} {fs : FS}
    {params : List String} {r : HRes}
    (h : getFileHash cfg st fs params = Except.ok r) : r.st = st := by
  rw [getFileHash] at h
  try dsimp only at h
  repeat' split at h
  all_goals first
    | exact Except.noConfusion h
    | (cases h; rfl)

theorem osCommand_st {cfg : Config} {st : State} {fs : FS}
    {params : List String} {r : HRes}
    (h : osCommand cfg st fs params = Except.ok r) : r.st = st := by
  rw [osCommand] at h
  try dsimp only at h
  repeat' split at h
  all_goals first
    | exact Except.noConfusion h
    | (cases h; rfl)

theorem compressFile_st {cfg : Config} {st : State} {fs : FS}
    {params : List String} {r : HRes}
    (h : compressFile cfg st fs params = Except.ok r) : r.st = st := by
  rw [compressFile] at h
  try dsimp only at h
  repeat' split at h
  all_goals first
    | exact Except.noConfusion h
    | (cases h; rfl)

theorem decompressFile_st {cfg : Config} {st : State} {fs : FS}
    {params : List String} {r : HRes}
    (h : decompressFile cfg st fs params = Except.ok r) : r.st = st := by
  rw [decompressFile] at h
  try dsimp only at h
  repeat' split at h
  all_goals first
    | exact Except.noConfusion h
    | (cases h; rfl)

theorem dispatchCmd_st {cfg : Config} {st : State} {fs : FS}
    {cmd : String} {tokens : List String} {r : HRes}
    (h : dispatchCmd cfg st fs cmd tokens = Except.ok r)
    (h1 : cmd ≠ "up") (h2 : cmd ≠ "cd") :
    r.st = st := by
  rw [dispatchCmd] at h
  by_cases e1 : (cmd == ".exit") = true
  · rw [if_pos e1] at h
    exact exitH_st h
  · rw [if_neg e1] at h
    by_cases e2 : (cmd == "up") = true
    · exact absurd (by simpa using e2) h1
    · rw [if_neg e2] at h
      by_cases e3 : (cmd == "cd") = true
      · exact absurd (by simpa using e3) h2
      · rw [if_neg e3] at h
        by_cases e4 : (cmd == "ls") = true
        · rw [if_pos e4] at h
          exact listDir_st h
        · rw [if_neg e4] at h
          by_cases e5 : (cmd == "cat") = true
          · rw [if_pos e5] at h
            exact printFileContent_st h
          · rw [if_neg e5] at h
            by_cases e6 : (cmd == "add") = true
            · rw [if_pos e6] at h
              exact createEmptyFile_st h
            · rw [if_neg e6] at h
              by_cases e7 : (cmd == "rn") = true
              · rw [if_pos e7] at h
                exact renameFile_st h
              · rw [if_neg e7] at h
                by_cases e8 : (cmd == "cp") = true
                · rw [if_pos e8] at h
                  exact copyFile_st h
                · rw [if_neg e8] at h
                  by_cases e9 : (cmd == "mv") = true
                  · rw [if_pos e9] at h
                    exact moveFile_st h
                  · rw [if_neg e9] at h
                    by_cases e10 : (cmd == "rm") = true
                    · rw [if_pos e10] at h
                      exact deleteFile_st h
                    · rw [if_neg e10] at h
                      by_cases e11 : (cmd == "os") = true
                      · rw [if_pos e11] at h
                        exact osCommand_st h
                      · rw [if_neg e11] at h
                        by_cases e12 : (cmd == "hash") = true
                        · rw [if_pos e12] at h
                          exact getFileHash_st h
                        · rw [if_neg e12] at h
                          by_cases e13 : (cmd == "compress") = true
                          · rw [if_pos e13] at h
                            exact compressFile_st h
                          · rw [if_neg e13] at h
                            by_cases e14 : (cmd == "decompress") = true
                            · rw [if_pos e14] at h
                              exact decompressFile_st h
                            · rw [if_neg e14] at h
                              cases h
                              rfl

theorem dispatch_st {cfg : Config} {st : State} {fs : FS}
    {tokens : List String} {r : HRes}
    (h : dispatch cfg st fs tokens = Except.ok r)
    (h1 : tokens.headD "" ≠ "up") (h2 : tokens.headD "" ≠ "cd") :
    r.st = st :=
  dispatchCmd_st h h1 h2

theorem startsWithStr_self (s : String) : startsWithStr s s = true :=
  isPre_refl s.data

theorem changeDir_cwd {st : State} {fs : FS} {params : List String}
    {r : HRes} (h : changeDir st fs params = Except.ok r) :
    r.st.currentWorkDir = st.currentWorkDir ∨
      startsWithStr (lowerStr r.st.currentWorkDir)
        (lowerStr st.rootWorkDir) = true := by
  rw [changeDir] at h
  dsimp only at h
  split at h
  · cases h
    exact Or.inl rfl
  · split at h
    · exact Except.noConfusion h
    · cases h
      exact Or.inr (ifAbsolutePathOK_ok ‹_›)

theorem resolve_up {cs : List String} (h : ∀ c ∈ cs, validComp c) :
    resolve (joinAbs cs) ".." = joinAbs cs.dropLast := by
  rw [resolve, resolveComps,
    if_neg (show ¬strIsAbsolute ".." = true by decide),
    splitPath_joinAbs h,
    show splitPath ".." = [".."] from rfl,
    normStack_app,
    normStack_id [] (fun c hc => ⟨(h c hc).2.1, (h c hc).2.2.1⟩)]
  simp [normStack]

theorem goUpper_startsWith {st : State} {fs : FS} {rc extra : List String}
    (hv : ∀ c ∈ rc ++ extra, validComp c)
    (hroot : st.rootWorkDir = joinAbs rc)
    (hcwd : st.currentWorkDir = joinAbs (rc ++ extra))
    {r : HRes} (h : goUpper st fs ["up"] = Except.ok r) :
    startsWithStr (lowerStr r.st.currentWorkDir)
      (lowerStr st.rootWorkDir) = true := by
  rw [goUpper, if_neg (by decide)] at h
  split at h
  · cases h
    rename_i hbe
    have heq : st.currentWorkDir = st.rootWorkDir := by simpa using hbe
    simp only [noop, heq]
    exact startsWithStr_self _
  · cases h
    rename_i hbe
    rcases List.eq_nil_or_concat extra with rfl | ⟨l2, a, rfl⟩
    · exfalso
      have hne : ¬st.currentWorkDir = st.rootWorkDir := by simpa using hbe
      exact hne (by rw [hcwd, hroot]; simp)
    · simp only [noop]
      rw [hcwd, resolve_up (by simpa using hv), hroot,
        List.concat_eq_append, ← List.append_assoc, List.dropLast_concat]
      exact isPre_map Char.toLower (isPre_joinAbs rc l2)

/-- C3: the tokenizer splits on unquoted spaces and the wrapping quotes
are stripped from each quoted token before use: the quoted example yields
the three unwrapped tokens, the empty line yields no tokens, and a line
with an unmatched quote still yields a token list (the lexer is total). -/
theorem claim3_tokenizer :
    tokenize "cp \x27a b.txt\x27 c.txt" = ["cp", "a b.txt", "c.txt"] ∧
    tokenize "" = [] ∧
    tokenize "rm \x27a b" = ["rm", "\x27a b"] :=
  ⟨rfl, rfl, rfl⟩

/-- C9: `#unbraketString` strips the first and last characters exactly
when the first character is a quote character equal to the last one
(`getLastD` of the tail with the head as default is the last character),
and a token consisting of a single quote character unwraps to the empty
string. -/
theorem claim9_unbraket :
    (∀ (c : Char) (l : List Char),
      unbraket (c :: l) =
        if charIsBracket c && (l.getLastD c == c) then l.dropLast
        else c :: l) ∧
    unbraketString (String.mk [quoteChar]) = "" ∧
    unbraketString (String.mk [dquoteChar]) = "" := by
  refine ⟨fun c l => ?_, rfl, rfl⟩
  unfold unbraket
  cases hb : charIsBracket c
  · simp [hb]
  · by_cases he : l.getLastD c = c
    · have he2 : l.getLast?.getD c = c := by
        simpa [List.getLastD_eq_getLast?] using he
      cases l <;> simp [hb, he, he2]
    · have he2 : ¬l.getLast?.getD c = c := by
        simpa [List.getLastD_eq_getLast?] using he
      simp [hb, he, he2]

/-- C4: `cp` on a one-byte file `0xFF` succeeds, leaves the source entry
untouched, but writes `EF BF BD` (the UTF-8 encoding of U+FFFD) to the
destination because `#createCopyingPromise` reads with the `utf-8`
encoding: the copy is not byte-for-byte. -/
theorem claim4_copy_not_byte_exact :
    copyFile stAtR fsBin ["cp", "s.bin", "d.bin"] =
      Except.ok (noop stAtR
        (fsBin ++ [("/r/d.bin", Entry.file [239, 191, 189])])) ∧
    ([239, 191, 189] : List Nat) ≠ [255] :=
  ⟨rfl, by decide⟩

/-- C5: even for a brotli codec pair that is a perfect byte-level inverse,
`compress` followed by `decompress` on the one-byte file `0xFF` yields
`EF BF BD`, not the original byte, because `#compressFile` reads its
source with the `utf-8` encoding: the round trip is not byte-exact. -/
theorem claim5_roundtrip_fails (comp decomp : List Nat → List Nat)
    (hinv : ∀ bs, decomp (comp bs) = bs) :
    compressFile ⟨"eol", [], "x64", fun _ => "d", comp, decomp⟩ stAtR fsBin
        ["compress", "s.bin", "s.br"] =
      Except.ok (noop stAtR
        (fsBin ++ [("/r/s.br", Entry.file (comp [239, 191, 189]))])) ∧
    decompressFile ⟨"eol", [], "x64", fun _ => "d", comp, decomp⟩ stAtR
        (fsBin ++ [("/r/s.br", Entry.file (comp [239, 191, 189]))])
        ["decompress", "s.br", "out.bin"] =
      Except.ok (noop stAtR
        ((fsBin ++ [("/r/s.br", Entry.file (comp [239, 191, 189]))]) ++
          [("/r/out.bin", Entry.file [239, 191, 189])])) ∧
    ([239, 191, 189] : List Nat) ≠ [255] := by
  refine ⟨rfl, ?_, by decide⟩
  rw [show decompressFile
      (⟨"eol", [], "x64", fun _ => "d", comp, decomp⟩ : Config) stAtR
      (fsBin ++ [("/r/s.br", Entry.file (comp [239, 191, 189]))])
      ["decompress", "s.br", "out.bin"] =
    Except.ok (noop stAtR
      ((fsBin ++ [("/r/s.br", Entry.file (comp [239, 191, 189]))]) ++
        [("/r/out.bin",
          Entry.file (decomp (comp [239, 191, 189])))])) from rfl,
    hinv]

/-- C5 witness: the theorem instantiated with the identity codec pair. -/
theorem claim5_roundtrip_fails_witness :
    compressFile ⟨"eol", [], "x64", fun _ => "d", id, id⟩ stAtR fsBin
        ["compress", "s.bin", "s.br"] =
      Except.ok (noop stAtR
        (fsBin ++ [("/r/s.br", Entry.file (id [239, 191, 189]))])) ∧
    decompressFile ⟨"eol", [], "x64", fun _ => "d", id, id⟩ stAtR
        (fsBin ++ [("/r/s.br", Entry.file (id [239, 191, 189]))])
        ["decompress", "s.br", "out.bin"] =
      Except.ok (noop stAtR
        ((fsBin ++ [("/r/s.br", Entry.file (id [239, 191, 189]))]) ++
          [("/r/out.bin", Entry.file [239, 191, 189])])) ∧
    ([239, 191, 189] : List Nat) ≠ [255] :=
  claim5_roundtrip_fails id id (fun _ => rfl)

/-- C6: `ls` in a directory whose readdir order is `b.txt`, `a.txt`,
`sub` prints the subdirectory first but leaves the two files in readdir
order (`b.txt` before `a.txt`): the comparator compares the non-existent
`name` property, so same-kind entries never reorder, and the output is
not ascending by name. -/
theorem claim6_listdir_not_sorted :
    listDir stAtR fsList ["ls"] =
      Except.ok (outRes stAtR fsList
        [OutLine.table [("sub", "directory"), ("b.txt", "file"),
          ("a.txt", "file")]]) ∧
    [("sub", "directory"), ("b.txt", "file"), ("a.txt", "file")] ≠
      [("sub", "directory"), ("a.txt", "file"), ("b.txt", "file")] :=
  ⟨rfl, by decide⟩

/-- C10: the destination non-existence precondition only rejects paths
that exist as regular files: if the resolved destination exists as a
directory, `#ifFileOK` with `checkFileNonExistance` skips straight to the
parent-directory validation and never raises the already-exists error. -/
theorem claim10_nonexistence_ignores_directories {root cwd p : String}
    {fs : FS} (hne : p ≠ "")
    (hdir : isDirectory fs (resolve cwd p) = true) :
    ifFileOK root cwd fs p false true =
      ifAbsolutePathOK root fs (dirname (resolve cwd p)) true ∧
    ∀ q, ifFileOK root cwd fs p false true ≠
      Except.error (FMError.fileAlreadyExists q) := by
  have hdata : p.data ≠ [] := fun hd => hne (by rw [← mkData p, hd])
  have hpd : ¬p.data.isEmpty = true := by
    simpa [List.isEmpty_iff] using hdata
  have hff : isFile fs (resolve cwd p) = false :=
    isFile_eq_false_of_isDirectory hdir
  have key : ifFileOK root cwd fs p false true =
      ifAbsolutePathOK root fs (dirname (resolve cwd p)) true := by
    rw [ifFileOK]
    dsimp only
    rw [if_neg hpd, if_neg (by simp), if_neg (by simp [hff])]
  exact ⟨key, fun q => key ▸ ifAbsolutePathOK_ne_alreadyExists root
    (dirname (resolve cwd p)) fs true q⟩

/-- C10 witness: the destination `sub` of root `/r` exists as a
directory, and the non-existence validation passes through to the parent
check without an already-exists error. -/
theorem claim10_witness :
    (ifFileOK "/r" "/r" fsList "sub" false true =
      ifAbsolutePathOK "/r" fsList (dirname (resolve "/r" "sub")) true) ∧
    ∀ q, ifFileOK "/r" "/r" fsList "sub" false true ≠
      Except.error (FMError.fileAlreadyExists q) :=
  claim10_nonexistence_ignores_directories (by decide) rfl

/-- C7: `cd` with any token count other than exactly one argument is
answered by the generic invalid-input message with session state and
filesystem untouched, and every handler asserts its exact token count the
same way before any effect (the `os` inner switch rejects more than two
tokens). -/
theorem claim7_arity (cfg : Config) (st : State) (fs : FS) :
    (∀ args : List String, args.length ≠ 1 →
      dispatch cfg st fs ("cd" :: args) = Except.ok (invalidRes st fs)) ∧
    (∀ ps : List String, ps.length ≠ 1 →
      exitH st fs ps = Except.ok (invalidRes st fs)) ∧
    (∀ ps : List String, ps.length ≠ 1 →
      goUpper st fs ps = Except.ok (invalidRes st fs)) ∧
    (∀ ps : List String, ps.length ≠ 2 →
      changeDir st fs ps = Except.ok (invalidRes st fs)) ∧
    (∀ ps : List String, ps.length ≠ 1 →
      listDir st fs ps = Except.ok (invalidRes st fs)) ∧
    (∀ ps : List String, ps.length ≠ 2 →
      printFileContent st fs ps = Except.ok (invalidRes st fs)) ∧
    (∀ ps : List String, ps.length ≠ 2 →
      createEmptyFile st fs ps = Except.ok (invalidRes st fs)) ∧
    (∀ ps : List String, ps.length ≠ 3 →
      renameFile st fs ps = Except.ok (invalidRes st fs)) ∧
    (∀ ps : List String, ps.length ≠ 3 →
      copyFile st fs ps = Except.ok (invalidRes st fs)) ∧
    (∀ ps : List String, ps.length ≠ 3 →
      moveFile st fs ps = Except.ok (invalidRes st fs)) ∧
    (∀ ps : List String, ps.length ≠ 2 →
      deleteFile st fs ps = Except.ok (invalidRes st fs)) ∧
    (∀ ps : List String, ps.length ≠ 2 →
      getFileHash cfg st fs ps = Except.ok (invalidRes st fs)) ∧
    (∀ ps : List String, ps.length ≠ 3 →
      compressFile cfg st fs ps = Except.ok (invalidRes st fs)) ∧
    (∀ ps : List String, ps.length ≠ 3 →
      decompressFile cfg st fs ps = Except.ok (invalidRes st fs)) ∧
    (∀ ps : List String, 2 < ps.length →
      osCommand cfg st fs ps = Except.ok (invalidRes st fs)) := by
  refine ⟨?_, ?_, ?_, ?_, ?_, ?_, ?_, ?_, ?_, ?_, ?_, ?_, ?_, ?_, ?_⟩
  · intro args h
    show changeDir st fs ("cd" :: args) = Except.ok (invalidRes st fs)
    rw [changeDir, if_pos (by simp [h])]
  · intro ps h
    rw [exitH, if_pos (by simp [h])]
  · intro ps h
    rw [goUpper, if_pos (by simp [h])]
  · intro ps h
    rw [changeDir, if_pos (by simp [h])]
  · intro ps h
    rw [listDir, if_pos (by simp [h])]
  · intro ps h
    rw [printFileContent, if_pos (by simp [h])]
  · intro ps h
    rw [createEmptyFile, if_pos (by simp [h])]
  · intro ps h
    rw [renameFile, if_pos (by simp [h])]
  · intro ps h
    rw [copyFile, if_pos (by simp [h])]
  · intro ps h
    rw [moveFile, if_pos (by simp [h])]
  · intro ps h
    rw [deleteFile, if_pos (by simp [h])]
  · intro ps h
    rw [getFileHash, if_pos (by simp [h])]
  · intro ps h
    rw [compressFile, if_pos (by simp [h])]
  · intro ps h
    rw [decompressFile, if_pos (by simp [h])]
  · intro ps h
    have hnone : getOSCommandParameter ps = none := by
      rw [getOSCommandParameter, if_pos (by simp [h])]
    rw [osCommand, hnone]

/-- C7 witness: `cd` with no argument and with two arguments, at a
concrete session. -/
theorem claim7_arity_witness :
    dispatch cfg0 stRootA fsSib ["cd"] =
      Except.ok (invalidRes stRootA fsSib) ∧
    dispatch cfg0 stRootA fsSib ["cd", "x", "y"] =
      Except.ok (invalidRes stRootA fsSib) ∧
    changeDir stRootA fsSib ["cd"] =
      Except.ok (invalidRes stRootA fsSib) :=
  ⟨(claim7_arity cfg0 stRootA fsSib).1 [] (by decide),
    (claim7_arity cfg0 stRootA fsSib).1 ["x", "y"] (by decide),
    (claim7_arity cfg0 stRootA fsSib).2.2.2.1 ["cd"] (by decide)⟩

/-- C8: `cp` onto a destination that exists as a directory inside the
root passes validation (the non-existence check only rejects regular
files), and the write stream of `#createCopyingPromise` then emits an
EISDIR `error` event that no listener handles: the promise never settles,
the catch and the finally of `#handleUserInput` never run, and the
process dies — no operation-failed line, no current-directory line and no
prompt line is printed, contradicting the claimed propagation policy. -/
theorem claim8_crash_on_directory_destination :
    copyFile stAtR fsList ["cp", "b.txt", "sub"] =
      Except.error (FMError.uncaught "/r/sub") ∧
    handleUserInput cfg0 stAtR fsList "cp b.txt sub" =
      { st := stAtR, fs := fsList, out := [], closed := false,
        crashed := true } :=
  ⟨rfl, rfl⟩

/-- C2 counterexample: for root `/a` the path `/b/f` resolves outside the
root and does not exist, yet validation with the existence flag fails
with the file-not-found error, not the outside-root error, because the
existence check runs before the sandbox check. -/
theorem claim2_counterexample :
    startsWithStr (lowerStr (resolve "/a" "/b/f")) (lowerStr "/a") =
      false ∧
    ifFileOK "/a" "/a" fsSib "/b/f" true false =
      Except.error (FMError.fileNotFound "/b/f") ∧
    FMError.fileNotFound "/b/f" ≠ FMError.outsideRoot :=
  ⟨rfl, rfl, by decide⟩

/-- C2 amended: when the resolved path does not start case-insensitively
with the root, `#ifFileOK` never succeeds, and the error is the
outside-root error precisely when the earlier checks pass: the path is
non-empty, the existence and non-existence preconditions hold, and the
resolved parent exists as a directory. -/
theorem claim2_amended {root cwd p : String} {fs : FS} {ce cne : Bool}
    (h : startsWithStr (lowerStr (resolve cwd p)) (lowerStr root) =
      false) :
    (ifFileOK root cwd fs p ce cne).isOk = false ∧
    (p.data ≠ [] →
      (ce && !isFile fs (resolve cwd p)) = false →
      (cne && isFile fs (resolve cwd p)) = false →
      isDirectory fs (dirname (resolve cwd p)) = true →
      ifFileOK root cwd fs p ce cne =
        Except.error FMError.outsideRoot) := by
  have hdirn : startsWithStr (lowerStr (dirname (resolve cwd p)))
      (lowerStr root) = false := by
    cases hsw : startsWithStr (lowerStr (dirname (resolve cwd p)))
        (lowerStr root) with
    | false => rfl
    | true =>
      exfalso
      have hpre : isPre (dirname (resolve cwd p)).data
          (resolve cwd p).data = true :=
        isPre_dirname (resolveComps_valid cwd p)
      have h2 := startsWith_lower_of_isPre root hpre hsw
      rw [h] at h2
      exact Bool.noConfusion h2
  refine ⟨ifFileOK_fails h, fun hp hce hcne hdd => ?_⟩
  rw [ifFileOK]
  dsimp only
  rw [if_neg (by simpa [List.isEmpty_iff] using hp),
    if_neg (by simp [hce]), if_neg (by simp [hcne]),
    ifAbsolutePathOK,
    if_neg (show ¬(dirname (resolve cwd p)).data.isEmpty = true by
      simpa [List.isEmpty_iff] using
        joinAbs_data_ne (splitPath (resolve cwd p)).dropLast),
    if_neg (show ¬(!strIsAbsolute (dirname (resolve cwd p))) = true by
      simpa using strIsAbsolute_joinAbs
        (splitPath (resolve cwd p)).dropLast),
    if_neg (by simp [hdd]),
    if_pos (by simp [hdirn])]

/-- C2 witness: the file `/b/f` exists under the existing directory `/b`
outside root `/a`; validation fails, and it fails with the outside-root
error since every earlier check passes. -/
theorem claim2_amended_witness :
    ((ifFileOK "/a" "/a"
        [("/", Entry.dir), ("/a", Entry.dir), ("/b", Entry.dir),
          ("/b/f", Entry.file [1])] "/b/f" true false).isOk = false ∧
    ("/b/f".data ≠ [] →
      (true && !isFile [("/", Entry.dir), ("/a", Entry.dir),
        ("/b", Entry.dir), ("/b/f", Entry.file [1])]
          (resolve "/a" "/b/f")) = false →
      (false && isFile [("/", Entry.dir), ("/a", Entry.dir),
        ("/b", Entry.dir), ("/b/f", Entry.file [1])]
          (resolve "/a" "/b/f")) = false →
      isDirectory [("/", Entry.dir), ("/a", Entry.dir), ("/b", Entry.dir),
        ("/b/f", Entry.file [1])] (dirname (resolve "/a" "/b/f")) = true →
      ifFileOK "/a" "/a"
        [("/", Entry.dir), ("/a", Entry.dir), ("/b", Entry.dir),
          ("/b/f", Entry.file [1])] "/b/f" true false =
        Except.error FMError.outsideRoot)) :=
  claim2_amended rfl

/-- C1 counterexample: from the reachable state rooted at `/a` with
current directory `/ab` (reached by `cd /ab`, which the validator accepts
because `/ab` starts with `/a`), the `up` command moves the current
directory to `/`, which no longer starts with the root: the invariant is
not preserved. -/
theorem claim1_counterexample :
    (handleUserInput cfg0 stRootA fsSib "cd /ab").st = stAtAB ∧
    (handleUserInput cfg0 stAtAB fsSib "up").st.currentWorkDir = "/" ∧
    startsWithStr (lowerStr "/") (lowerStr "/a") = false :=
  ⟨rfl, rfl, rfl⟩

/-- C1 amended: only `up` and `cd` ever change the current directory; any
line that changes it has `up` or `cd` as its command word; `cd` either
leaves the directory unchanged or establishes the case-insensitive prefix
invariant, so `up` is the only command able to break it; and `up` does
preserve the invariant whenever the current directory is the root itself
or a true path descendant of it (root components followed by further
components). -/
theorem claim1_amended :
    (∀ (cfg : Config) (st : State) (fs : FS) (input : String),
      (handleUserInput cfg st fs input).st.currentWorkDir ≠
        st.currentWorkDir →
      (getCommandWithParameters input).headD "" = "up" ∨
        (getCommandWithParameters input).headD "" = "cd") ∧
    (∀ (cfg : Config) (st : State) (fs : FS) (input : String),
      (handleUserInput cfg st fs input).st.currentWorkDir =
        st.currentWorkDir ∨
      startsWithStr
        (lowerStr (handleUserInput cfg st fs input).st.currentWorkDir)
        (lowerStr st.rootWorkDir) = true ∨
      (getCommandWithParameters input).headD "" = "up") ∧
    (∀ (cfg : Config) (st : State) (fs : FS) (rc extra : List String),
      (∀ c ∈ rc ++ extra, validComp c) →
      st.rootWorkDir = joinAbs rc →
      st.currentWorkDir = joinAbs (rc ++ extra) →
      startsWithStr
        (lowerStr (handleUserInput cfg st fs "up").st.currentWorkDir)
        (lowerStr st.rootWorkDir) = true) := by
  have stCases : ∀ (cfg : Config) (st : State) (fs : FS) (input : String),
      (handleUserInput cfg st fs input).st = st ∨
      ∃ r, dispatch cfg st fs (getCommandWithParameters input) =
          Except.ok r ∧
        (handleUserInput cfg st fs input).st = r.st := by
    intro cfg st fs input
    rw [handleUserInput]
    split
    · exact Or.inl rfl
    · dsimp only
      split
      · exact Or.inl rfl
      · rcases hd : dispatch cfg st fs (getCommandWithParameters input)
          with e | r
        · cases e <;> exact Or.inl rfl
        · exact Or.inr ⟨r, rfl, rfl⟩
  refine ⟨fun cfg st fs input hne => ?_, fun cfg st fs input => ?_,
    fun cfg st fs rc extra hv hroot hcwd => ?_⟩
  · by_contra hcmd
    push_neg at hcmd
    rcases stCases cfg st fs input with hst | ⟨r, hd, hst⟩
    · exact hne (by rw [hst])
    · exact hne (by rw [hst, dispatch_st hd hcmd.1 hcmd.2])
  · rcases stCases cfg st fs input with hst | ⟨r, hd, hst⟩
    · exact Or.inl (by rw [hst])
    · by_cases hup : (getCommandWithParameters input).headD "" = "up"
      · exact Or.inr (Or.inr hup)
      · by_cases hcd : (getCommandWithParameters input).headD "" = "cd"
        · rw [dispatch, hcd] at hd
          have hcd2 : changeDir st fs (getCommandWithParameters input) =
              Except.ok r := hd
          rcases changeDir_cwd hcd2 with hsame | hsw
          · exact Or.inl (by rw [hst, hsame])
          · exact Or.inr (Or.inl (by rw [hst]; exact hsw))
        · exact Or.inl (by rw [hst, dispatch_st hd hup hcd])
  · rcases stCases cfg st fs "up" with hst | ⟨r, hd, hst⟩
    · rw [hst, hcwd, hroot]
      exact isPre_map Char.toLower (isPre_joinAbs rc extra)
    · have hg : goUpper st fs ["up"] = Except.ok r := hd
      rw [hst]
      exact goUpper_startsWith hv hroot hcwd hg

/-- C1 witness: the three amended parts applied at concrete sessions:
`cd /ab` is a directory-changing line, its result satisfies one of the
three cases, and `up` from the root `/a` itself keeps the invariant. -/
theorem claim1_amended_witness :
    ((getCommandWithParameters "cd /ab").headD "" = "up" ∨
      (getCommandWithParameters "cd /ab").headD "" = "cd") ∧
    ((handleUserInput cfg0 stRootA fsSib "cd /ab").st.currentWorkDir =
        stRootA.currentWorkDir ∨
      startsWithStr
        (lowerStr
          (handleUserInput cfg0 stRootA fsSib "cd /ab").st.currentWorkDir)
        (lowerStr stRootA.rootWorkDir) = true ∨
      (getCommandWithParameters "cd /ab").headD "" = "up") ∧
    startsWithStr
      (lowerStr (handleUserInput cfg0 stRootA fsSib "up").st.currentWorkDir)
      (lowerStr stRootA.rootWorkDir) = true :=
  ⟨claim1_amended.1 cfg0 stRootA fsSib "cd /ab" (by decide),
    claim1_amended.2.1 cfg0 stRootA fsSib "cd /ab",
    claim1_amended.2.2 cfg0 stRootA fsSib ["a"] [] (by decide) rfl rfl⟩

end FM
